import Mathlib

/-!
Shallow embedding of the knex-modeling migration core (src/types.ts,
src/MigrationGenerator.ts, src/MigrationParser.ts): column definitions,
the schema differ and alteration classifier, migration merging, operation
grouping, migration text generation, and the migration-file call extractor,
together with theorems about their behaviour.

Conventions of the embedding:
- TypeScript optional fields become `Option` values (`none` = the field is
  absent / `undefined`).
- JavaScript objects used as string-keyed records become association lists
  `List (String × ColumnDefinition)`; `Object.entries` iteration is list
  iteration, `obj[k]` is `List.lookup`, and JavaScript's guarantee that an
  object has no duplicate keys becomes a `Nodup` hypothesis on the key list.
- The JavaScript expression `x || d` applied to an optional number is
  `orDefault`, which maps both `undefined` and the falsy number `0` to `d`.
- `JSON.stringify` equality comparisons on column definitions become
  decidable structural equality of the corresponding Lean structures.
-/

/-- Column types supported by the schema model (types.ts, `ColumnType`). -/
inductive ColumnType where
  | increments
  | bigIncrements
  | integer
  | bigInteger
  | string
  | text
  | boolean
  | date
  | datetime
  | timestamp
  | time
  | float
  | double
  | decimal
  | binary
  | json
  | jsonb
  | uuid
  | enum
deriving DecidableEq

/-- Default values a column can carry (`defaultTo` in types.ts is a string,
number or boolean; the sentinel spelling "now" is the string "now"). -/
inductive DefaultValue where
  | str (s : String)
  | num (n : Int)
  | boolVal (b : Bool)
deriving DecidableEq

/-- A column definition (types.ts `ColumnDefinition`): the union of the base
definition with the string / decimal / enum specific optional fields. -/
structure ColumnDefinition where
  type : ColumnType
  primary : Option Bool := none
  unique : Option Bool := none
  nullable : Option Bool := none
  required : Option Bool := none
  defaultTo : Option DefaultValue := none
  onUpdate : Option String := none
  index : Option Bool := none
  comment : Option String := none
  maxLength : Option Nat := none
  precision : Option Nat := none
  scale : Option Nat := none
  values : Option (List String) := none
deriving DecidableEq

/-- A schema is a string-keyed record of column definitions
(types.ts `SchemaDefinition`), embedded as an association list. -/
abbrev SchemaDefinition := List (String × ColumnDefinition)

/-- Safety tier of a column alteration (MigrationGenerator.ts). -/
inductive AlterationType where
  | alter
  | raw
  | recreate
deriving DecidableEq

/-- The JavaScript expression `x || d` on an optional number: `undefined`
and the falsy number `0` both yield the default `d`
(MigrationGenerator.ts lines 281-291). -/
def orDefault : Option Nat → Nat → Nat
  | some n, d => if n = 0 then d else n
  | none, d => d

/-- Drop the `comment` field (MigrationGenerator.ts `hasColumnChanged`
deletes `comment` from both sides before comparing). -/
def eraseComment (d : ColumnDefinition) : ColumnDefinition :=
  { d with comment := none }

/-- MigrationGenerator.ts `hasColumnChanged`: structural inequality of the
two definitions after removing the `comment` field. -/
def hasColumnChanged (oldDef newDef : ColumnDefinition) : Bool :=
  decide (eraseComment oldDef ≠ eraseComment newDef)

/-- MigrationGenerator.ts `canUseAlterMethod`: sequential early-return
checks deciding whether a change can use the builder's `.alter()`. -/
def canUseAlterMethod (oldDef newDef : ColumnDefinition) : Bool :=
  if oldDef.type ≠ newDef.type then false
  else if oldDef.type = ColumnType.string ∧ newDef.type = ColumnType.string then
    decide (orDefault oldDef.maxLength 255 ≤ orDefault newDef.maxLength 255)
  else if oldDef.type = ColumnType.decimal ∧ newDef.type = ColumnType.decimal then
    decide (orDefault oldDef.precision 8 ≤ orDefault newDef.precision 8 ∧
      orDefault oldDef.scale 2 ≤ orDefault newDef.scale 2)
  else if oldDef.nullable = some false ∧ newDef.nullable = some true then true
  else if oldDef.defaultTo ≠ newDef.defaultTo ∧ oldDef.type = newDef.type then true
  else false

/-- MigrationGenerator.ts `needsRawQuery`: constraint changes that require
raw SQL. `unique`/`primary` comparisons are strict (`undefined` differs from
`false`); enum `values` are compared structurally; the nullable check fires
only when tightening an explicit `true` to an explicit `false`. -/
def needsRawQuery (oldDef newDef : ColumnDefinition) : Bool :=
  decide (oldDef.unique ≠ newDef.unique) ||
  decide (oldDef.primary ≠ newDef.primary) ||
  decide (oldDef.values ≠ newDef.values) ||
  (decide (oldDef.nullable = some true) && decide (newDef.nullable = some false))

/-- MigrationGenerator.ts `determineAlterationType`: alter first, then raw,
then the recreate fallback. -/
def determineAlterationType (oldDef newDef : ColumnDefinition) : AlterationType :=
  if canUseAlterMethod oldDef newDef then AlterationType.alter
  else if needsRawQuery oldDef newDef then AlterationType.raw
  else AlterationType.recreate

/-- An `Option Bool` field cannot simultaneously be an explicit `true` and an
explicit `false`; the nullable-tightening test on identical fields is `false`. -/
theorem nullable_tighten_self (x : Option Bool) :
    (decide (x = some true) && decide (x = some false)) = false := by
  rcases x with _ | b
  · simp
  · cases b <;> simp

/-- Old column definition for the C3 counterexample: a plain string column. -/
def c3old : ColumnDefinition := { type := ColumnType.string, maxLength := some 255 }

/-- New column definition for the C3 counterexample: same, with `unique` set. -/
def c3new : ColumnDefinition := { c3old with unique := some true }

/-- C3 counterexample: for a string column, flipping `unique` from absent to
`true` with all other fields equal is classified `alter`, not `raw`: the
string branch of `canUseAlterMethod` returns early with
`newLength >= oldLength` (the lengths are equal), so the unique-flip never
reaches `needsRawQuery`. This refutes the claim for the `string` (and,
symmetrically, `decimal`) column types it explicitly includes. -/
theorem c3_counterexample :
    determineAlterationType c3old c3new = AlterationType.alter ∧
    determineAlterationType c3old c3new ≠ AlterationType.raw := by
  decide

/-- C3 (amended): for every column type other than `string` and `decimal`,
a column change that only flips the `unique` flag from `false`-or-absent to
`true` is classified `raw`. (For `string` and `decimal` the size check
returns `alter` first, see the counterexample.) -/
theorem c3_unique_flip_raw (d : ColumnDefinition)
    (hs : d.type ≠ ColumnType.string) (hd : d.type ≠ ColumnType.decimal)
    (hu : d.unique = none ∨ d.unique = some false) :
    determineAlterationType d { d with unique := some true } = AlterationType.raw := by
  have hnul : ¬ (d.nullable = some false ∧
      ({ d with unique := some true } : ColumnDefinition).nullable = some true) := by
    rintro ⟨e1, e2⟩
    simp only [e1] at e2
    exact Bool.noConfusion (Option.some.inj e2)
  have hdef : ¬ (d.defaultTo ≠ ({ d with unique := some true } : ColumnDefinition).defaultTo ∧
      d.type = ({ d with unique := some true } : ColumnDefinition).type) := by
    rintro ⟨e1, _⟩
    exact e1 rfl
  have hcan : canUseAlterMethod d { d with unique := some true } = false := by
    unfold canUseAlterMethod
    rw [if_neg (by simp), if_neg (fun h => hs h.1), if_neg (fun h => hd h.1),
      if_neg hnul, if_neg hdef]
  have hraw : needsRawQuery d { d with unique := some true } = true := by
    unfold needsRawQuery
    rcases hu with h | h <;> simp [h]
  simp [determineAlterationType, hcan, hraw]

/-- Base column definition used by the C3 witness. -/
def c3base : ColumnDefinition := { type := ColumnType.boolean }

/-- C3 witness: the amended theorem applied to a concrete boolean column. -/
theorem c3_unique_flip_raw_witness :
    determineAlterationType c3base { c3base with unique := some true } = AlterationType.raw :=
  c3_unique_flip_raw c3base (by decide) (by decide) (Or.inl rfl)

/-- Old column for the C4 counterexample: a 500-char non-nullable string. -/
def c4old : ColumnDefinition :=
  { type := ColumnType.string, maxLength := some 500, nullable := some false }

/-- New column for the C4 counterexample: shrunk to 255 chars and nullable. -/
def c4new : ColumnDefinition :=
  { type := ColumnType.string, maxLength := some 255, nullable := some true }

/-- C4 counterexample: loosening nullability from `false` to `true` does not
always yield `alter`: for a string column whose `maxLength` also shrank, the
string branch of `canUseAlterMethod` returns `false` before the nullable
check is reached, and the change is classified `recreate`. -/
theorem c4_counterexample :
    determineAlterationType c4old c4new = AlterationType.recreate ∧
    determineAlterationType c4old c4new ≠ AlterationType.alter := by
  decide

/-- C4 (amended): for identical column types other than `string` and
`decimal`, loosening nullability from an explicit `false` to an explicit
`true` is classified `alter`, whatever the other fields are. -/
theorem c4_nullable_loosen_alter (oldDef newDef : ColumnDefinition)
    (ht : oldDef.type = newDef.type)
    (hs : oldDef.type ≠ ColumnType.string) (hd : oldDef.type ≠ ColumnType.decimal)
    (ho : oldDef.nullable = some false) (hn : newDef.nullable = some true) :
    determineAlterationType oldDef newDef = AlterationType.alter := by
  have hcan : canUseAlterMethod oldDef newDef = true := by
    unfold canUseAlterMethod
    rw [if_neg (by simp [ht]), if_neg (fun h => hs h.1), if_neg (fun h => hd h.1),
      if_pos ⟨ho, hn⟩]
  simp [determineAlterationType, hcan]

/-- C4 witness: the amended theorem at a concrete integer column. -/
theorem c4_nullable_loosen_alter_witness :
    determineAlterationType { type := ColumnType.integer, nullable := some false }
      { type := ColumnType.integer, nullable := some true } = AlterationType.alter :=
  c4_nullable_loosen_alter _ _ rfl (by decide) (by decide) rfl rfl

/-- `x || d` evaluates to `x` itself whenever `x` is a present, nonzero number. -/
theorem orDefault_pos (n : Nat) (d : Nat) (h : 0 < n) : orDefault (some n) d = n := by
  simp [orDefault, Nat.pos_iff_ne_zero.mp h]

/-- Old column for the C5 counterexample: a string column with `maxLength` 0. -/
def c5old : ColumnDefinition := { type := ColumnType.string, maxLength := some 0 }

/-- New column for the C5 counterexample: `maxLength` raised to 7. -/
def c5new : ColumnDefinition := { type := ColumnType.string, maxLength := some 7 }

/-- C5 counterexample: raising `maxLength` from 0 to 7 is an increase, yet the
change is classified `recreate`, not `alter`: JavaScript's `maxLength || 255`
treats the falsy length 0 as the default 255, so the code compares 7 against
255 and rejects the alter path. -/
theorem c5_counterexample :
    (0 : Nat) < 7 ∧
    determineAlterationType c5old c5new = AlterationType.recreate ∧
    determineAlterationType c5old c5new ≠ AlterationType.alter := by
  decide

/-- C5 (amended): for two string column definitions identical in every field
except a positive `maxLength`, an increase of `maxLength` is classified
`alter` and a decrease is classified `recreate`. (Positivity is required
because a `maxLength` of 0 is coerced to the default 255 by `|| 255`.) -/
theorem c5_string_length_classification (d : ColumnDefinition) (m1 m2 : Nat)
    (ht : d.type = ColumnType.string) (h1 : 0 < m1) (h2 : 0 < m2) :
    (m1 < m2 →
      determineAlterationType { d with maxLength := some m1 } { d with maxLength := some m2 } =
        AlterationType.alter) ∧
    (m2 < m1 →
      determineAlterationType { d with maxLength := some m1 } { d with maxLength := some m2 } =
        AlterationType.recreate) := by
  have hcan : canUseAlterMethod { d with maxLength := some m1 } { d with maxLength := some m2 } =
      decide (m1 ≤ m2) := by
    unfold canUseAlterMethod
    rw [if_neg (by simp), if_pos ⟨by simpa using ht, by simpa using ht⟩]
    simp only [orDefault_pos m1 255 h1, orDefault_pos m2 255 h2]
  constructor
  · intro hlt
    have : canUseAlterMethod { d with maxLength := some m1 } { d with maxLength := some m2 } =
        true := by
      rw [hcan]
      simpa using Nat.le_of_lt hlt
    simp [determineAlterationType, this]
  · intro hgt
    have hfalse : canUseAlterMethod { d with maxLength := some m1 }
        { d with maxLength := some m2 } = false := by
      rw [hcan]
      simpa using Nat.not_le.mpr hgt
    have hraw : needsRawQuery { d with maxLength := some m1 } { d with maxLength := some m2 } =
        false := by
      unfold needsRawQuery
      simp [nullable_tighten_self]
    simp [determineAlterationType, hfalse, hraw]

/-- Base string column used by the C5 witness. -/
def c5base : ColumnDefinition := { type := ColumnType.string }

/-- C5 witness: the amended theorem at the spec's own example lengths
(255 → 500 is `alter`) and at the reverse (500 → 255 is `recreate`). -/
theorem c5_string_length_classification_witness :
    determineAlterationType { c5base with maxLength := some 255 }
        { c5base with maxLength := some 500 } = AlterationType.alter ∧
    determineAlterationType { c5base with maxLength := some 500 }
        { c5base with maxLength := some 255 } = AlterationType.recreate :=
  ⟨(c5_string_length_classification c5base 255 500 rfl (by decide) (by decide)).1 (by decide),
   (c5_string_length_classification c5base 500 255 rfl (by decide) (by decide)).2 (by decide)⟩

/-- Old column for the C10 counterexample: a string column with no `maxLength`. -/
def c10old : ColumnDefinition := { type := ColumnType.string }

/-- New column for the C10 counterexample: `maxLength` present but 0. -/
def c10new : ColumnDefinition := { type := ColumnType.string, maxLength := some 0 }

/-- C10 counterexample: the claim's "alter if and only if n ≥ 255" fails at
n = 0: the new length 0 is falsy, `0 || 255` coerces it to 255, the code
compares 255 ≥ 255, and the change is classified `alter` although 0 < 255. -/
theorem c10_counterexample :
    determineAlterationType c10old c10new = AlterationType.alter ∧ ¬ (255 ≤ 0) := by
  decide

/-- C10 (amended): a string definition with no `maxLength` (or a falsy 0) is
treated as `maxLength` 255 and a decimal definition with no `precision` or
`scale` as precision 8 / scale 2; hence for an old string definition lacking
`maxLength` and a new one carrying a positive `maxLength` n, the
classification is `alter` iff n ≥ 255, and for an old decimal definition
lacking `precision`/`scale` and a new one carrying positive precision p and
scale s, it is `alter` iff p ≥ 8 and s ≥ 2. -/
theorem c10_defaulted_size_classification :
    (∀ (d : ColumnDefinition) (n : Nat), d.type = ColumnType.string → 0 < n →
      (determineAlterationType { d with maxLength := none } { d with maxLength := some n } =
          AlterationType.alter ↔ 255 ≤ n)) ∧
    (∀ (d : ColumnDefinition) (p s : Nat), d.type = ColumnType.decimal → 0 < p → 0 < s →
      (determineAlterationType { d with precision := none, scale := none }
          { d with precision := some p, scale := some s } =
          AlterationType.alter ↔ (8 ≤ p ∧ 2 ≤ s))) := by
  constructor
  · intro d n ht hn
    have hcan : canUseAlterMethod { d with maxLength := none } { d with maxLength := some n } =
        decide (255 ≤ n) := by
      unfold canUseAlterMethod
      rw [if_neg (by simp), if_pos ⟨by simpa using ht, by simpa using ht⟩]
      simp [orDefault, Nat.pos_iff_ne_zero.mp hn]
    constructor
    · intro halter
      by_contra hle
      have hfalse : canUseAlterMethod { d with maxLength := none }
          { d with maxLength := some n } = false := by
        rw [hcan]
        simpa using hle
      have hraw : needsRawQuery { d with maxLength := none } { d with maxLength := some n } =
          false := by
        unfold needsRawQuery
        simp [nullable_tighten_self]
      simp [determineAlterationType, hfalse, hraw] at halter
    · intro hge
      have htrue : canUseAlterMethod { d with maxLength := none }
          { d with maxLength := some n } = true := by
        rw [hcan]
        simpa using hge
      simp [determineAlterationType, htrue]
  · intro d p s ht hp hs
    have hcan : canUseAlterMethod { d with precision := none, scale := none }
        { d with precision := some p, scale := some s } = decide (8 ≤ p ∧ 2 ≤ s) := by
      unfold canUseAlterMethod
      rw [if_neg (by simp), if_neg ?hstr, if_pos ⟨by simpa using ht, by simpa using ht⟩]
      case hstr =>
        rintro ⟨e1, _⟩
        rw [show ({ d with precision := none, scale := none } : ColumnDefinition).type = d.type
          from rfl, ht] at e1
        exact ColumnType.noConfusion e1
      simp [orDefault, Nat.pos_iff_ne_zero.mp hp, Nat.pos_iff_ne_zero.mp hs]
    constructor
    · intro halter
      by_contra hle
      have hfalse : canUseAlterMethod { d with precision := none, scale := none }
          { d with precision := some p, scale := some s } = false := by
        rw [hcan]
        simpa using hle
      have hraw : needsRawQuery { d with precision := none, scale := none }
          { d with precision := some p, scale := some s } = false := by
        unfold needsRawQuery
        simp [nullable_tighten_self]
      simp [determineAlterationType, hfalse, hraw] at halter
    · intro hge
      have htrue : canUseAlterMethod { d with precision := none, scale := none }
          { d with precision := some p, scale := some s } = true := by
        rw [hcan]
        simpa using hge
      simp [determineAlterationType, htrue]

/-- Base decimal column used by the C10 witness. -/
def c10decimal : ColumnDefinition := { type := ColumnType.decimal }

/-- C10 witness: the amended theorem at concrete sizes: a defaulted string
column widened to 300 is `alter`, and a defaulted decimal column given
precision 10 / scale 2 is `alter`. -/
theorem c10_defaulted_size_classification_witness :
    (determineAlterationType { c5base with maxLength := none }
        { c5base with maxLength := some 300 } = AlterationType.alter ↔ 255 ≤ 300) ∧
    (determineAlterationType { c10decimal with precision := none, scale := none }
        { c10decimal with precision := some 10, scale := some 2 } = AlterationType.alter ↔
      (8 ≤ 10 ∧ 2 ≤ 2)) :=
  ⟨c10_defaulted_size_classification.1 c5base 300 rfl (by decide),
   c10_defaulted_size_classification.2 c10decimal 10 2 rfl (by decide) (by decide)⟩

/-- The keys of a schema, in entry order (`Object.keys`). -/
def schemaKeys (s : SchemaDefinition) : List String := s.map Prod.fst

/-- Property lookup `schema[columnName]` on the embedded record:
first entry with the given key. -/
def findCol : SchemaDefinition → String → Option ColumnDefinition
  | [], _ => none
  | (k', d) :: t, k => if k = k' then some d else findCol t k

/-- A migration operation (types.ts `MigrationOperation`): tagged variant;
`dropColumn` retains the old definition when available, `alterColumn` carries
old/new definitions and the (optional) alteration type. -/
inductive MigrationOperation where
  | createTable (tableName : String) (schema : SchemaDefinition)
  | dropTable (tableName : String)
  | addColumn (tableName columnName : String) (definition : ColumnDefinition)
  | dropColumn (tableName columnName : String) (oldDefinition : Option ColumnDefinition)
  | alterColumn (tableName columnName : String) (definition : ColumnDefinition)
      (oldDefinition : Option ColumnDefinition) (alterationType : Option AlterationType)
deriving DecidableEq

/-- First loop of MigrationGenerator.ts `generateSchemaDiff`: columns of the
new schema absent from the old schema become `addColumn` operations. -/
def addedOps (t : String) (oldS newS : SchemaDefinition) : List MigrationOperation :=
  newS.filterMap fun kv =>
    if findCol oldS kv.1 = none then some (.addColumn t kv.1 kv.2) else none

/-- Body of the second loop of `generateSchemaDiff`, generalized over the
iterated key list (the keys of the old schema): keys absent from the new
schema become `dropColumn` operations retaining the old definition. -/
def dropAux (t : String) (oldS newS : SchemaDefinition) (L : List String) :
    List MigrationOperation :=
  L.filterMap fun k =>
    if findCol newS k = none then some (.dropColumn t k (findCol oldS k)) else none

/-- Second loop of `generateSchemaDiff`: iterate `Object.keys(oldSchema)`. -/
def droppedOps (t : String) (oldS newS : SchemaDefinition) : List MigrationOperation :=
  dropAux t oldS newS (schemaKeys oldS)

/-- Third loop of `generateSchemaDiff`: columns present in both schemas whose
definitions differ (ignoring `comment`) become `alterColumn` operations
carrying the old definition and the classification. -/
def alteredOps (t : String) (oldS newS : SchemaDefinition) : List MigrationOperation :=
  newS.filterMap fun kv =>
    match findCol oldS kv.1 with
    | some od =>
      if hasColumnChanged od kv.2 then
        some (.alterColumn t kv.1 kv.2 (some od) (some (determineAlterationType od kv.2)))
      else none
    | none => none

/-- MigrationGenerator.ts `generateSchemaDiff`: added, then removed, then
altered columns, in the old/new schemas' entry orders. -/
def generateSchemaDiff (t : String) (oldS newS : SchemaDefinition) :
    List MigrationOperation :=
  addedOps t oldS newS ++ droppedOps t oldS newS ++ alteredOps t oldS newS

/-- Record update `obj[k] = d`: overwrite the first entry with key `k`, or
append a new entry when the key is absent. -/
def setCol : SchemaDefinition → String → ColumnDefinition → SchemaDefinition
  | [], k, d => [(k, d)]
  | (k', d') :: t, k, d => if k = k' then (k', d) :: t else (k', d') :: setCol t k d

/-- Record deletion `delete obj[k]`: drop the entries with key `k`. -/
def delCol : SchemaDefinition → String → SchemaDefinition
  | [], _ => []
  | (k', d') :: t, k => if k' = k then delCol t k else (k', d') :: delCol t k

/-- Forward (mental) replay of one diff operation, as the round-trip claim
describes it: add the added column, remove the dropped column, replace the
altered column with its new definition. -/
def applyOpForward (s : SchemaDefinition) : MigrationOperation → SchemaDefinition
  | .addColumn _ k d => setCol s k d
  | .dropColumn _ k _ => delCol s k
  | .alterColumn _ k d _ _ => setCol s k d
  | _ => s

/-- Forward replay of a diff, in operation order. -/
def applyForwardOps (ops : List MigrationOperation) (s : SchemaDefinition) :
    SchemaDefinition :=
  ops.foldl applyOpForward s

/-- Reverse replay of one diff operation, as the round-trip claim describes
it: drop the added column, re-add a dropped column from its retained old
definition, restore an altered column to its old definition. -/
def applyOpReverse (s : SchemaDefinition) : MigrationOperation → SchemaDefinition
  | .addColumn _ k _ => delCol s k
  | .dropColumn _ k old? => match old? with | some d => setCol s k d | none => s
  | .alterColumn _ k _ old? _ => match old? with | some d => setCol s k d | none => s
  | _ => s

/-- Reverse replay of a diff, in reversed operation order. -/
def applyReverseOps (ops : List MigrationOperation) (s : SchemaDefinition) :
    SchemaDefinition :=
  ops.reverse.foldl applyOpReverse s

/-- The column key an operation touches (`none` for table-level operations). -/
def colKeyOf : MigrationOperation → Option String
  | .addColumn _ k _ => some k
  | .dropColumn _ k _ => some k
  | .alterColumn _ k _ _ _ => some k
  | _ => none

/-- Whether an operation touches the column `k`. -/
def touches (k : String) (op : MigrationOperation) : Bool :=
  decide (colKeyOf op = some k)

/-- Effect of one forward-replayed operation on the value found at key `k`. -/
def pointForward (k : String) (v : Option ColumnDefinition) :
    MigrationOperation → Option ColumnDefinition
  | .addColumn _ k' d => if k' = k then some d else v
  | .dropColumn _ k' _ => if k' = k then none else v
  | .alterColumn _ k' d _ _ => if k' = k then some d else v
  | _ => v

/-- Effect of one reverse-replayed operation on the value found at key `k`. -/
def pointReverse (k : String) (v : Option ColumnDefinition) :
    MigrationOperation → Option ColumnDefinition
  | .addColumn _ k' _ => if k' = k then none else v
  | .dropColumn _ k' old? =>
    if k' = k then (match old? with | some d => some d | none => v) else v
  | .alterColumn _ k' _ old? _ =>
    if k' = k then (match old? with | some d => some d | none => v) else v
  | _ => v

/-- Lookup after a record update. -/
theorem findCol_setCol (s : SchemaDefinition) (k k' : String) (d : ColumnDefinition) :
    findCol (setCol s k d) k' = if k' = k then some d else findCol s k' := by
  induction s with
  | nil => simp [setCol, findCol]
  | cons hd t ih =>
    obtain ⟨k1, d1⟩ := hd
    by_cases h1 : k = k1
    · subst h1
      by_cases h2 : k' = k <;> simp [setCol, findCol, h2]
    · by_cases h2 : k' = k1
      · have h3 : k1 ≠ k := fun e => h1 e.symm
        simp [setCol, findCol, h1, h2, h3]
      · simp [setCol, findCol, h1, h2, ih]

/-- Lookup after a record deletion. -/
theorem findCol_delCol (s : SchemaDefinition) (k k' : String) :
    findCol (delCol s k) k' = if k' = k then none else findCol s k' := by
  induction s with
  | nil => simp [delCol, findCol]
  | cons hd t ih =>
    obtain ⟨k1, d1⟩ := hd
    by_cases h1 : k1 = k
    · subst h1
      by_cases h2 : k' = k1
      · subst h2
        simp [delCol, findCol, ih]
      · simp [delCol, findCol, h2, ih]
    · by_cases h2 : k' = k1
      · have h3 : k1 ≠ k := h1
        subst h2
        simp [delCol, findCol, h1, h3, findCol]
      · simp [delCol, findCol, h1, h2, ih]

/-- A key present as an entry is found by lookup. -/
theorem findCol_isSome_of_mem (s : SchemaDefinition) (k : String) (d : ColumnDefinition)
    (h : (k, d) ∈ s) : (findCol s k).isSome := by
  induction s with
  | nil => cases h
  | cons hd t ih =>
    obtain ⟨k1, d1⟩ := hd
    by_cases h2 : k = k1
    · simp [findCol, h2]
    · have h1 : (k, d) ∈ t := by
        rcases List.mem_cons.mp h with h1 | h1
        · exact absurd (congrArg Prod.fst h1) h2
        · exact h1
      simp only [findCol, if_neg h2]
      exact ih h1

/-- Lookup fails exactly on keys outside the key list. -/
theorem findCol_eq_none_iff (s : SchemaDefinition) (k : String) :
    findCol s k = none ↔ k ∉ schemaKeys s := by
  induction s with
  | nil => simp [findCol, schemaKeys]
  | cons hd t ih =>
    obtain ⟨k1, d1⟩ := hd
    by_cases h : k = k1
    · simp [findCol, schemaKeys, h]
    · simp only [findCol, if_neg h, schemaKeys, List.map_cons, List.mem_cons]
      rw [ih]
      simp [schemaKeys, h]

/-- With duplicate-free keys, lookup of a present entry returns exactly it. -/
theorem findCol_eq_of_mem_nodup (s : SchemaDefinition) (k : String) (d : ColumnDefinition)
    (hnd : (schemaKeys s).Nodup) (h : (k, d) ∈ s) : findCol s k = some d := by
  induction s with
  | nil => cases h
  | cons hd t ih =>
    obtain ⟨k1, d1⟩ := hd
    have hnd' : k1 ∉ schemaKeys t ∧ (schemaKeys t).Nodup := List.nodup_cons.mp hnd
    rcases List.mem_cons.mp h with h1 | h1
    · cases h1
      simp [findCol]
    · have hk : k ∈ schemaKeys t := List.mem_map_of_mem Prod.fst h1
      have h2 : k ≠ k1 := fun e => hnd'.1 (e ▸ hk)
      simp only [findCol, if_neg h2]
      exact ih hnd'.2 h1

/-- Forward replay acts pointwise on each key. -/
theorem findCol_applyForward (ops : List MigrationOperation) (s : SchemaDefinition)
    (k : String) :
    findCol (ops.foldl applyOpForward s) k = ops.foldl (pointForward k) (findCol s k) := by
  induction ops generalizing s with
  | nil => rfl
  | cons op t ih =>
    have hstep : findCol (applyOpForward s op) k = pointForward k (findCol s k) op := by
      cases op <;>
        simp [applyOpForward, pointForward, findCol_setCol, findCol_delCol, eq_comm]
    simp only [List.foldl_cons, ih, hstep]

/-- Reverse replay acts pointwise on each key. -/
theorem findCol_applyReverse (ops : List MigrationOperation) (s : SchemaDefinition)
    (k : String) :
    findCol (ops.foldl applyOpReverse s) k = ops.foldl (pointReverse k) (findCol s k) := by
  induction ops generalizing s with
  | nil => rfl
  | cons op t ih =>
    have hstep : findCol (applyOpReverse s op) k = pointReverse k (findCol s k) op := by
      cases op with
      | dropColumn t' k' old? =>
        cases old? <;> simp [applyOpReverse, pointReverse, findCol_setCol, eq_comm]
      | alterColumn t' k' d' old? at? =>
        cases old? <;> simp [applyOpReverse, pointReverse, findCol_setCol, eq_comm]
      | _ =>
        simp [applyOpReverse, pointReverse, findCol_setCol, findCol_delCol, eq_comm]
    simp only [List.foldl_cons, ih, hstep]

/-- Operations not touching `k` leave the pointwise forward value unchanged. -/
theorem pointForward_untouched (k : String) (v : Option ColumnDefinition)
    (op : MigrationOperation) (h : touches k op = false) : pointForward k v op = v := by
  cases op <;> simp [touches, colKeyOf] at h <;> simp [pointForward, h]

/-- Operations not touching `k` leave the pointwise reverse value unchanged. -/
theorem pointReverse_untouched (k : String) (v : Option ColumnDefinition)
    (op : MigrationOperation) (h : touches k op = false) : pointReverse k v op = v := by
  cases op <;> simp [touches, colKeyOf] at h <;> simp [pointReverse, h]

/-- The pointwise forward fold only depends on the operations touching `k`. -/
theorem foldl_pointForward_filter (ops : List MigrationOperation)
    (k : String) (v : Option ColumnDefinition) :
    ops.foldl (pointForward k) v = (ops.filter (touches k)).foldl (pointForward k) v := by
  induction ops generalizing v with
  | nil => rfl
  | cons op t ih =>
    by_cases h : touches k op
    · simp [List.filter_cons, h, ih]
    · have h0 : touches k op = false := by simpa using h
      simp [List.filter_cons, h0, ih, pointForward_untouched k v op h0]

/-- The pointwise reverse fold only depends on the operations touching `k`. -/
theorem foldl_pointReverse_filter (ops : List MigrationOperation)
    (k : String) (v : Option ColumnDefinition) :
    ops.foldl (pointReverse k) v = (ops.filter (touches k)).foldl (pointReverse k) v := by
  induction ops generalizing v with
  | nil => rfl
  | cons op t ih =>
    by_cases h : touches k op
    · simp [List.filter_cons, h, ih]
    · have h0 : touches k op = false := by simpa using h
      simp [List.filter_cons, h0, ih, pointReverse_untouched k v op h0]

/-- `touches` on an `addColumn` operation. -/
theorem touches_addColumn (k t k' : String) (d : ColumnDefinition) :
    touches k (.addColumn t k' d) = decide (k' = k) := by
  simp [touches, colKeyOf]

/-- `touches` on a `dropColumn` operation. -/
theorem touches_dropColumn (k t k' : String) (old? : Option ColumnDefinition) :
    touches k (.dropColumn t k' old?) = decide (k' = k) := by
  simp [touches, colKeyOf]

/-- `touches` on an `alterColumn` operation. -/
theorem touches_alterColumn (k t k' : String) (d : ColumnDefinition)
    (old? : Option ColumnDefinition) (at? : Option AlterationType) :
    touches k (.alterColumn t k' d old? at?) = decide (k' = k) := by
  simp [touches, colKeyOf]

/-- The add loop emits nothing touching a key absent from the new schema. -/
theorem addedOps_filter_notMem (t : String) (oldS newS : SchemaDefinition) (k : String)
    (h : k ∉ schemaKeys newS) : (addedOps t oldS newS).filter (touches k) = [] := by
  induction newS with
  | nil => rfl
  | cons hd tl ih =>
    obtain ⟨k1, d1⟩ := hd
    have h1 : k1 ≠ k := fun e => h (by simp [schemaKeys, e])
    have h2 : k ∉ schemaKeys tl := fun e => h (by simp [schemaKeys] at e ⊢; exact Or.inr e)
    have ih2 : (addedOps t oldS tl).filter (touches k) = [] := ih h2
    by_cases h3 : findCol oldS k1 = none
    · simpa [addedOps, List.filterMap_cons, h3, List.filter_cons, touches_addColumn, h1]
        using ih2
    · simpa [addedOps, List.filterMap_cons, h3] using ih2

/-- The add loop emits nothing touching a key present in the old schema. -/
theorem addedOps_filter_oldSome (t : String) (oldS newS : SchemaDefinition) (k : String)
    (h : findCol oldS k ≠ none) : (addedOps t oldS newS).filter (touches k) = [] := by
  induction newS with
  | nil => rfl
  | cons hd tl ih =>
    obtain ⟨k1, d1⟩ := hd
    by_cases h2 : findCol oldS k1 = none
    · have h1 : k1 ≠ k := fun e => h (e ▸ h2)
      simpa [addedOps, List.filterMap_cons, h2, List.filter_cons, touches_addColumn, h1]
        using ih
    · simpa [addedOps, List.filterMap_cons, h2] using ih

/-- With duplicate-free new keys, the add loop emits exactly one operation
for a key that is new-only: `addColumn` with the new definition. -/
theorem addedOps_filter_newOnly (t : String) (oldS newS : SchemaDefinition) (k : String)
    (d : ColumnDefinition) (hnd : (schemaKeys newS).Nodup)
    (hnew : findCol newS k = some d) (hold : findCol oldS k = none) :
    (addedOps t oldS newS).filter (touches k) = [.addColumn t k d] := by
  induction newS with
  | nil => cases hnew
  | cons hd tl ih =>
    obtain ⟨k1, d1⟩ := hd
    have hnd' : k1 ∉ schemaKeys tl ∧ (schemaKeys tl).Nodup := List.nodup_cons.mp hnd
    by_cases h1 : k = k1
    · subst h1
      have hd1 : d1 = d := by simpa [findCol] using hnew
      subst hd1
      have hrest : (addedOps t oldS tl).filter (touches k) = [] :=
        addedOps_filter_notMem t oldS tl k hnd'.1
      simpa [addedOps, List.filterMap_cons, hold, List.filter_cons, touches_addColumn]
        using hrest
    · have hnew' : findCol tl k = some d := by simpa [findCol, h1] using hnew
      have h1' : k1 ≠ k := fun e => h1 e.symm
      have ih2 := ih hnd'.2 hnew'
      by_cases h2 : findCol oldS k1 = none
      · simpa [addedOps, List.filterMap_cons, h2, List.filter_cons, touches_addColumn, h1']
          using ih2
      · simpa [addedOps, List.filterMap_cons, h2] using ih2

/-- The drop loop emits nothing touching a key outside the iterated key list. -/
theorem dropAux_filter_notMem (t : String) (oldS newS : SchemaDefinition)
    (L : List String) (k : String) (h : k ∉ L) :
    (dropAux t oldS newS L).filter (touches k) = [] := by
  induction L with
  | nil => rfl
  | cons k1 tl ih =>
    have h1 : k1 ≠ k := fun e => h (by simp [e])
    have h2 : k ∉ tl := fun e => h (List.mem_cons_of_mem k1 e)
    by_cases h3 : findCol newS k1 = none
    · simpa [dropAux, List.filterMap_cons, h3, List.filter_cons, touches_dropColumn, h1]
        using ih h2
    · simpa [dropAux, List.filterMap_cons, h3] using ih h2

/-- The drop loop emits nothing touching a key present in the new schema. -/
theorem dropAux_filter_newSome (t : String) (oldS newS : SchemaDefinition)
    (L : List String) (k : String) (h : findCol newS k ≠ none) :
    (dropAux t oldS newS L).filter (touches k) = [] := by
  induction L with
  | nil => rfl
  | cons k1 tl ih =>
    by_cases h3 : findCol newS k1 = none
    · have h1 : k1 ≠ k := fun e => h (e ▸ h3)
      simpa [dropAux, List.filterMap_cons, h3, List.filter_cons, touches_dropColumn, h1]
        using ih
    · simpa [dropAux, List.filterMap_cons, h3] using ih

/-- With a duplicate-free key list, the drop loop emits exactly one operation
for an old-only key: `dropColumn` retaining the old definition. -/
theorem dropAux_filter_oldOnly (t : String) (oldS newS : SchemaDefinition)
    (L : List String) (k : String) (hnd : L.Nodup) (hmem : k ∈ L)
    (hnew : findCol newS k = none) :
    (dropAux t oldS newS L).filter (touches k) = [.dropColumn t k (findCol oldS k)] := by
  induction L with
  | nil => cases hmem
  | cons k1 tl ih =>
    have hnd' : k1 ∉ tl ∧ tl.Nodup := List.nodup_cons.mp hnd
    by_cases h1 : k = k1
    · subst h1
      have hrest : (dropAux t oldS newS tl).filter (touches k) = [] :=
        dropAux_filter_notMem t oldS newS tl k hnd'.1
      simpa [dropAux, List.filterMap_cons, hnew, List.filter_cons, touches_dropColumn]
        using hrest
    · have hmem' : k ∈ tl := by
        rcases List.mem_cons.mp hmem with h | h
        · exact absurd h h1
        · exact h
      have h1' : k1 ≠ k := fun e => h1 e.symm
      have ih2 := ih hnd'.2 hmem'
      by_cases h3 : findCol newS k1 = none
      · simpa [dropAux, List.filterMap_cons, h3, List.filter_cons, touches_dropColumn, h1']
          using ih2
      · simpa [dropAux, List.filterMap_cons, h3] using ih2

/-- The alter loop emits nothing touching a key absent from the new schema. -/
theorem alteredOps_filter_notMem (t : String) (oldS newS : SchemaDefinition) (k : String)
    (h : k ∉ schemaKeys newS) : (alteredOps t oldS newS).filter (touches k) = [] := by
  induction newS with
  | nil => rfl
  | cons hd tl ih =>
    obtain ⟨k1, d1⟩ := hd
    have h1 : k1 ≠ k := fun e => h (by simp [schemaKeys, e])
    have h2 : k ∉ schemaKeys tl := fun e => h (by simp [schemaKeys] at e ⊢; exact Or.inr e)
    have ih2 : (alteredOps t oldS tl).filter (touches k) = [] := ih h2
    rcases h3 : findCol oldS k1 with _ | od
    · simpa [alteredOps, List.filterMap_cons, h3] using ih2
    · by_cases h4 : hasColumnChanged od d1
      · simpa [alteredOps, List.filterMap_cons, h3, h4, List.filter_cons,
          touches_alterColumn, h1] using ih2
      · simpa [alteredOps, List.filterMap_cons, h3, h4] using ih2

/-- The alter loop emits nothing touching a key absent from the old schema. -/
theorem alteredOps_filter_oldNone (t : String) (oldS newS : SchemaDefinition) (k : String)
    (h : findCol oldS k = none) : (alteredOps t oldS newS).filter (touches k) = [] := by
  induction newS with
  | nil => rfl
  | cons hd tl ih =>
    obtain ⟨k1, d1⟩ := hd
    rcases h3 : findCol oldS k1 with _ | od
    · simpa [alteredOps, List.filterMap_cons, h3] using ih
    · have h1 : k1 ≠ k := fun e => by
        rw [e] at h3
        rw [h3] at h
        cases h
      by_cases h4 : hasColumnChanged od d1
      · simpa [alteredOps, List.filterMap_cons, h3, h4, List.filter_cons,
          touches_alterColumn, h1] using ih
      · simpa [alteredOps, List.filterMap_cons, h3, h4] using ih

/-- With duplicate-free new keys, the alter loop's contribution at a key
present in both schemas is the single classified `alterColumn` when the
definitions differ (ignoring comments), and nothing otherwise. -/
theorem alteredOps_filter_both (t : String) (oldS newS : SchemaDefinition) (k : String)
    (od nd : ColumnDefinition) (hnd : (schemaKeys newS).Nodup)
    (hnew : findCol newS k = some nd) (hold : findCol oldS k = some od) :
    (alteredOps t oldS newS).filter (touches k) =
      if hasColumnChanged od nd then
        [.alterColumn t k nd (some od) (some (determineAlterationType od nd))]
      else [] := by
  induction newS with
  | nil => cases hnew
  | cons hd tl ih =>
    obtain ⟨k1, d1⟩ := hd
    have hnd' : k1 ∉ schemaKeys tl ∧ (schemaKeys tl).Nodup := List.nodup_cons.mp hnd
    by_cases h1 : k = k1
    · subst h1
      have hd1 : d1 = nd := by simpa [findCol] using hnew
      subst hd1
      have hrest : (alteredOps t oldS tl).filter (touches k) = [] :=
        alteredOps_filter_notMem t oldS tl k hnd'.1
      by_cases h4 : hasColumnChanged od d1
      · simpa [alteredOps, List.filterMap_cons, hold, h4, List.filter_cons,
          touches_alterColumn] using hrest
      · simpa [alteredOps, List.filterMap_cons, hold, h4] using hrest
    · have hnew' : findCol tl k = some nd := by simpa [findCol, h1] using hnew
      have h1' : k1 ≠ k := fun e => h1 e.symm
      have ih2 := ih hnd'.2 hnew'
      rcases h3 : findCol oldS k1 with _ | od1
      · simpa [alteredOps, List.filterMap_cons, h3] using ih2
      · by_cases h4 : hasColumnChanged od1 d1
        · simpa [alteredOps, List.filterMap_cons, h3, h4, List.filter_cons,
            touches_alterColumn, h1'] using ih2
        · simpa [alteredOps, List.filterMap_cons, h3, h4] using ih2

/-- C2: diffing a schema against itself yields no operations: no column is
new-only or old-only, and `hasColumnChanged` is false on identical
definitions, so none of the three loops emits an operation. -/
theorem c2_diff_self_empty (t : String) (S : SchemaDefinition)
    (hnd : (schemaKeys S).Nodup) : generateSchemaDiff t S S = [] := by
  have hadd : addedOps t S S = [] := by
    rw [addedOps, List.filterMap_eq_nil_iff]
    rintro ⟨k, d⟩ hkv
    have hsome := findCol_isSome_of_mem S k d hkv
    have h2 : ¬ (findCol S k = none) := by
      intro h
      rw [h] at hsome
      simp at hsome
    simp [h2]
  have hdrop : droppedOps t S S = [] := by
    rw [droppedOps, dropAux, List.filterMap_eq_nil_iff]
    intro k hk
    have hsome : (findCol S k).isSome := by
      obtain ⟨kv, hmem, he⟩ := List.mem_map.mp hk
      obtain ⟨k', d⟩ := kv
      cases he
      exact findCol_isSome_of_mem S k' d hmem
    have h2 : ¬ (findCol S k = none) := by
      intro h
      rw [h] at hsome
      simp at hsome
    simp [h2]
  have halt : alteredOps t S S = [] := by
    rw [alteredOps, List.filterMap_eq_nil_iff]
    rintro ⟨k, d⟩ hkv
    have heq : findCol S k = some d := findCol_eq_of_mem_nodup S k d hnd hkv
    simp [heq, hasColumnChanged]
  simp [generateSchemaDiff, hadd, hdrop, halt]

/-- Concrete two-column schema used by the C2 witness. -/
def c2schema : SchemaDefinition :=
  [("id", { type := ColumnType.increments, primary := some true }),
   ("name", { type := ColumnType.string, maxLength := some 255 })]

/-- C2 witness: the theorem applied to a concrete two-column schema. -/
theorem c2_diff_self_empty_witness :
    (schemaKeys c2schema).Nodup ∧ generateSchemaDiff "users" c2schema c2schema = [] :=
  ⟨by decide, c2_diff_self_empty "users" c2schema (by decide)⟩

/-- Old schema for the C1 counterexample: one column with comment "x". -/
def c1old : SchemaDefinition := [("a", { type := ColumnType.integer, comment := some "x" })]

/-- New schema for the C1 counterexample: same column with comment "y". -/
def c1new : SchemaDefinition := [("a", { type := ColumnType.integer, comment := some "y" })]

/-- C1 counterexample: two schemas that differ only in a column's `comment`
produce an empty diff (`hasColumnChanged` erases comments before comparing),
so replaying the forward operations on the old schema leaves the old comment
in place and does not reconstruct the new schema. -/
theorem c1_counterexample :
    generateSchemaDiff "t" c1old c1new = [] ∧
    findCol (applyForwardOps (generateSchemaDiff "t" c1old c1new) c1old) "a" ≠
      findCol c1new "a" := by
  decide

/-- C1 (amended): the round-trip law holds up to the `comment` field. For
duplicate-free schemas, replaying the forward operations of the diff on the
old schema agrees with the new schema on every column after erasing
comments, and replaying the reverse operations on the new schema agrees
with the old schema after erasing comments. (Exact equality fails only on
comment-only differences, which the differ deliberately ignores.) -/
theorem c1_roundtrip_up_to_comment (t : String) (oldS newS : SchemaDefinition)
    (hndOld : (schemaKeys oldS).Nodup) (hndNew : (schemaKeys newS).Nodup) (k : String) :
    ((findCol (applyForwardOps (generateSchemaDiff t oldS newS) oldS) k).map eraseComment =
      (findCol newS k).map eraseComment) ∧
    ((findCol (applyReverseOps (generateSchemaDiff t oldS newS) newS) k).map eraseComment =
      (findCol oldS k).map eraseComment) := by
  have hfwd0 : findCol (applyForwardOps (generateSchemaDiff t oldS newS) oldS) k =
      ((generateSchemaDiff t oldS newS).filter (touches k)).foldl (pointForward k)
        (findCol oldS k) := by
    rw [applyForwardOps, findCol_applyForward, foldl_pointForward_filter]
  have hrev0 : findCol (applyReverseOps (generateSchemaDiff t oldS newS) newS) k =
      (((generateSchemaDiff t oldS newS).filter (touches k)).reverse).foldl (pointReverse k)
        (findCol newS k) := by
    rw [applyReverseOps, findCol_applyReverse, foldl_pointReverse_filter,
      List.filter_reverse]
  have hsplit : (generateSchemaDiff t oldS newS).filter (touches k) =
      (addedOps t oldS newS).filter (touches k) ++
      (dropAux t oldS newS (schemaKeys oldS)).filter (touches k) ++
      (alteredOps t oldS newS).filter (touches k) := by
    simp [generateSchemaDiff, droppedOps, List.filter_append]
  rcases hOld : findCol oldS k with _ | od <;> rcases hNew : findCol newS k with _ | nd
  · -- column in neither schema: the diff never touches it
    have hA := addedOps_filter_notMem t oldS newS k ((findCol_eq_none_iff newS k).mp hNew)
    have hD := dropAux_filter_notMem t oldS newS (schemaKeys oldS) k
      ((findCol_eq_none_iff oldS k).mp hOld)
    have hAl := alteredOps_filter_oldNone t oldS newS k hOld
    rw [hA, hD, hAl] at hsplit
    constructor
    · rw [hfwd0, hsplit, hOld]
      rfl
    · rw [hrev0, hsplit, hNew]
      rfl
  · -- column only in the new schema: a single addColumn
    have hA := addedOps_filter_newOnly t oldS newS k nd hndNew hNew hOld
    have hD := dropAux_filter_newSome t oldS newS (schemaKeys oldS) k (by rw [hNew]; simp)
    have hAl := alteredOps_filter_oldNone t oldS newS k hOld
    rw [hA, hD, hAl] at hsplit
    constructor
    · rw [hfwd0, hsplit]
      simp [pointForward]
    · rw [hrev0, hsplit]
      simp [pointReverse]
  · -- column only in the old schema: a single dropColumn retaining it
    have hA := addedOps_filter_oldSome t oldS newS k (by rw [hOld]; simp)
    have hmem : k ∈ schemaKeys oldS := by
      by_contra hmem
      rw [(findCol_eq_none_iff oldS k).mpr hmem] at hOld
      cases hOld
    have hD := dropAux_filter_oldOnly t oldS newS (schemaKeys oldS) k hndOld hmem hNew
    have hAl := alteredOps_filter_notMem t oldS newS k ((findCol_eq_none_iff newS k).mp hNew)
    rw [hA, hD, hAl, hOld] at hsplit
    constructor
    · rw [hfwd0, hsplit]
      simp [pointForward]
    · rw [hrev0, hsplit]
      simp [pointReverse]
  · -- column in both schemas: a single classified alterColumn, or nothing
    have hA := addedOps_filter_oldSome t oldS newS k (by rw [hOld]; simp)
    have hD := dropAux_filter_newSome t oldS newS (schemaKeys oldS) k (by rw [hNew]; simp)
    have hAl := alteredOps_filter_both t oldS newS k od nd hndNew hNew hOld
    rw [hA, hD, hAl] at hsplit
    by_cases hch : hasColumnChanged od nd
    · rw [if_pos hch] at hsplit
      constructor
      · rw [hfwd0, hsplit]
        simp [pointForward]
      · rw [hrev0, hsplit]
        simp [pointReverse]
    · have heq : eraseComment od = eraseComment nd := by
        have := (Bool.not_eq_true _).mp (by simpa using hch)
        simpa [hasColumnChanged] using of_decide_eq_false this
      rw [if_neg hch] at hsplit
      constructor
      · rw [hfwd0, hsplit]
        simp [heq]
        exact ⟨od, hOld, heq⟩
      · rw [hrev0, hsplit]
        simp [heq]
        exact ⟨nd, hNew, rfl⟩

/-- Old schema for the C1 witness. -/
def c1wOld : SchemaDefinition :=
  [("id", { type := ColumnType.increments, primary := some true }),
   ("name", { type := ColumnType.string, maxLength := some 255 })]

/-- New schema for the C1 witness: `name` widened, `email` added. -/
def c1wNew : SchemaDefinition :=
  [("id", { type := ColumnType.increments, primary := some true }),
   ("name", { type := ColumnType.string, maxLength := some 500 }),
   ("email", { type := ColumnType.string })]

/-- C1 witness: the amended round-trip theorem at concrete schemas and the
altered column `name`. -/
theorem c1_roundtrip_up_to_comment_witness :
    ((findCol (applyForwardOps (generateSchemaDiff "users" c1wOld c1wNew) c1wOld)
        "name").map eraseComment = (findCol c1wNew "name").map eraseComment) ∧
    ((findCol (applyReverseOps (generateSchemaDiff "users" c1wOld c1wNew) c1wNew)
        "name").map eraseComment = (findCol c1wOld "name").map eraseComment) :=
  c1_roundtrip_up_to_comment "users" c1wOld c1wNew (by decide) (by decide) "name"

/-- Kinds of alter operations (MigrationParser.ts `AlterOperation.type`). -/
inductive AlterOpType where
  | addColumn
  | dropColumn
  | modifyColumn
deriving DecidableEq

/-- MigrationParser.ts `AlterOperation`: kind, column name, and an optional
definition (absent for drops, and optional in the TypeScript interface). -/
structure AlterOperation where
  type : AlterOpType
  columnName : String
  definition : Option ColumnDefinition := none
deriving DecidableEq

/-- Operation kind of a parsed migration (MigrationParser.ts). -/
inductive MigrationKind where
  | create
  | alter
  | drop
deriving DecidableEq

/-- MigrationParser.ts `ParsedMigration`. -/
structure ParsedMigration where
  tableName : String
  columns : SchemaDefinition
  operation : MigrationKind
  migrationFile : String
  alterOperations : Option (List AlterOperation) := none
deriving DecidableEq

/-- `Object.assign(mergedColumns, migration.columns)`: copy every entry of
`cols` into `acc` in entry order, overwriting same-named entries. -/
def objAssign (acc cols : SchemaDefinition) : SchemaDefinition :=
  cols.foldl (fun a kv => setCol a kv.1 kv.2) acc

/-- One alter operation applied to the accumulator (the `switch` inside
MigrationParser.ts `mergeTableMigrations`): add/modify set the named column
when a definition is present, drop removes it (missing key is a no-op). -/
def applyAlterOperation (acc : SchemaDefinition) (op : AlterOperation) :
    SchemaDefinition :=
  match op.type with
  | .addColumn =>
    match op.definition with
    | some d => setCol acc op.columnName d
    | none => acc
  | .dropColumn => delCol acc op.columnName
  | .modifyColumn =>
    match op.definition with
    | some d => setCol acc op.columnName d
    | none => acc

/-- One parsed migration applied to the accumulator (the body of the replay
loop in `mergeTableMigrations`); a `drop` migration is not handled and is a
no-op. -/
def mergeStep (acc : SchemaDefinition) (m : ParsedMigration) : SchemaDefinition :=
  match m.operation with
  | .create => objAssign acc m.columns
  | .alter =>
    match m.alterOperations with
    | some ops => ops.foldl applyAlterOperation acc
    | none => acc
  | .drop => acc

/-- `migrations.sort((a, b) => a.migrationFile.localeCompare(b.migrationFile))`:
a stable sort ascending by migration file name (string order standing in for
the locale comparison). -/
def sortMigrations (ms : List ParsedMigration) : List ParsedMigration :=
  ms.mergeSort fun a b => decide (a.migrationFile ≤ b.migrationFile)

/-- MigrationParser.ts `mergeTableMigrations`: sort by file name, then replay
every migration into an initially empty accumulator. -/
def mergeTableMigrations (ms : List ParsedMigration) : SchemaDefinition :=
  (sortMigrations ms).foldl mergeStep []

/-- Pointwise effect of one alter operation at key `k`, written from the
claim's replay rule. -/
def specReplayAlterOp (k : String) (v : Option ColumnDefinition)
    (op : AlterOperation) : Option ColumnDefinition :=
  match op.type with
  | .addColumn =>
    match op.definition with
    | some d => if op.columnName = k then some d else v
    | none => v
  | .dropColumn => if op.columnName = k then none else v
  | .modifyColumn =>
    match op.definition with
    | some d => if op.columnName = k then some d else v
    | none => v

/-- Pointwise effect of one migration at key `k`, written from the claim's
replay rule: a create assigns its columns (overwriting same-named entries,
leaving others), an alter folds its operations in listed order. -/
def specMergeStep (k : String) (v : Option ColumnDefinition) (m : ParsedMigration) :
    Option ColumnDefinition :=
  match m.operation with
  | .create =>
    match findCol m.columns k with
    | some d => some d
    | none => v
  | .alter =>
    match m.alterOperations with
    | some ops => ops.foldl (specReplayAlterOp k) v
    | none => v
  | .drop => v

/-- The merged value the claim predicts at key `k`: fold the sorted
migrations pointwise from an empty accumulator. -/
def specMergedValue (ms : List ParsedMigration) (k : String) :
    Option ColumnDefinition :=
  (sortMigrations ms).foldl (specMergeStep k) none

/-- `Object.assign` looked up at `k`: the copied record wins when it has the
key, otherwise the accumulator's entry survives. -/
theorem findCol_objAssign (cols acc : SchemaDefinition) (k : String)
    (hnd : (schemaKeys cols).Nodup) :
    findCol (objAssign acc cols) k =
      match findCol cols k with
      | some d => some d
      | none => findCol acc k := by
  induction cols generalizing acc with
  | nil => rfl
  | cons hd tl ih =>
    obtain ⟨k1, d1⟩ := hd
    have hnd' : k1 ∉ schemaKeys tl ∧ (schemaKeys tl).Nodup := List.nodup_cons.mp hnd
    have hstep : objAssign acc ((k1, d1) :: tl) = objAssign (setCol acc k1 d1) tl := rfl
    rw [hstep, ih (setCol acc k1 d1) hnd'.2]
    by_cases h : k = k1
    · subst h
      have hnone : findCol tl k = none := (findCol_eq_none_iff tl k).mpr hnd'.1
      simp [findCol, hnone, findCol_setCol]
    · rcases h2 : findCol tl k with _ | d
      · simp [findCol, h, h2, findCol_setCol]
      · simp [findCol, h, h2]

/-- One alter operation acts pointwise at each key. -/
theorem findCol_applyAlterOperation (acc : SchemaDefinition) (op : AlterOperation)
    (k : String) :
    findCol (applyAlterOperation acc op) k = specReplayAlterOp k (findCol acc k) op := by
  obtain ⟨ty, name, def?⟩ := op
  cases ty <;> cases def? <;>
    simp [applyAlterOperation, specReplayAlterOp, findCol_setCol, findCol_delCol, eq_comm]

/-- One migration replay step acts pointwise at each key. -/
theorem findCol_mergeStep (acc : SchemaDefinition) (m : ParsedMigration) (k : String)
    (hnd : (schemaKeys m.columns).Nodup) :
    findCol (mergeStep acc m) k = specMergeStep k (findCol acc k) m := by
  obtain ⟨tn, cols, opk, file, alts⟩ := m
  cases opk with
  | create => simpa [mergeStep, specMergeStep] using findCol_objAssign cols acc k hnd
  | alter =>
    cases alts with
    | none => rfl
    | some ops =>
      simp only [mergeStep, specMergeStep]
      induction ops generalizing acc with
      | nil => rfl
      | cons op tl ih =>
        simp only [List.foldl_cons, ih (applyAlterOperation acc op) hnd,
          findCol_applyAlterOperation]
  | drop => rfl

/-- C7: `mergeTableMigrations` sorts ascending by migration file name and
replays create/alter migrations into the accumulator; at every column key
the result is exactly the claim's replay rule (create assigns all columns,
overwriting same-named entries and keeping the rest; alter applies its
operations in listed order, add/modify setting the named column and drop
removing it, with a missing key a no-op); the sorted replay order is
ascending by file name. -/
theorem c7_merge_replays_sorted_migrations (ms : List ParsedMigration) (k : String)
    (hnd : ∀ m ∈ ms, (schemaKeys m.columns).Nodup) :
    findCol (mergeTableMigrations ms) k = specMergedValue ms k ∧
    (sortMigrations ms).Pairwise
      (fun a b => decide (a.migrationFile ≤ b.migrationFile) = true) := by
  constructor
  · have main : ∀ (l : List ParsedMigration) (acc : SchemaDefinition),
        (∀ m ∈ l, (schemaKeys m.columns).Nodup) →
        findCol (l.foldl mergeStep acc) k = l.foldl (specMergeStep k) (findCol acc k) := by
      intro l
      induction l with
      | nil => intro acc _; rfl
      | cons m tl ih =>
        intro acc hl
        have h1 : (schemaKeys m.columns).Nodup := hl m (List.mem_cons_self m tl)
        have h2 : ∀ m' ∈ tl, (schemaKeys m'.columns).Nodup :=
          fun m' hm' => hl m' (List.mem_cons_of_mem m hm')
        simp only [List.foldl_cons, ih (mergeStep acc m) h2,
          findCol_mergeStep acc m k h1]
    have hsorted : ∀ m ∈ sortMigrations ms, (schemaKeys m.columns).Nodup := by
      intro m hm
      exact hnd m (List.mem_mergeSort.mp hm)
    simpa [mergeTableMigrations, specMergedValue, findCol]
      using main (sortMigrations ms) [] hsorted
  · refine List.sorted_mergeSort ?_ ?_ ms
    · intro a b c hab hbc
      simp only [decide_eq_true_eq] at hab hbc ⊢
      exact le_trans hab hbc
    · intro a b
      rcases le_total a.migrationFile b.migrationFile with h | h <;> simp [h]

/-- Concrete migration history used by the C7 witness: one create followed by
one alter that adds a column and drops another. -/
def c7migs : List ParsedMigration :=
  [{ tableName := "users",
     columns := [("id", { type := ColumnType.increments, primary := some true }),
                 ("name", { type := ColumnType.string, maxLength := some 255 })],
     operation := MigrationKind.create,
     migrationFile := "001_create_users.js" },
   { tableName := "users",
     columns := [],
     operation := MigrationKind.alter,
     migrationFile := "002_alter_users.js",
     alterOperations := some
       [{ type := AlterOpType.addColumn, columnName := "email",
          definition := some { type := ColumnType.string } },
        { type := AlterOpType.dropColumn, columnName := "name" }] }]

/-- C7 witness: the merge/replay theorem at a concrete history and the
dropped column `name`. -/
theorem c7_merge_replays_sorted_migrations_witness :
    findCol (mergeTableMigrations c7migs) "name" = specMergedValue c7migs "name" ∧
    (sortMigrations c7migs).Pairwise
      (fun a b => decide (a.migrationFile ≤ b.migrationFile) = true) :=
  c7_merge_replays_sorted_migrations c7migs "name" (by decide)

/-- The table an operation belongs to (`operation.tableName`). -/
def opTable : MigrationOperation → String
  | .createTable t _ => t
  | .dropTable t => t
  | .addColumn t _ _ => t
  | .dropColumn t _ _ => t
  | .alterColumn t _ _ _ _ => t

/-- MigrationGenerator.ts `canGroupOperations`: every operation must be an
add, a drop, or an alter whose `alterationType` is `alter` or absent
(`op.alterationType === 'alter' || !op.alterationType`). -/
def canGroupOperations (ops : List MigrationOperation) : Bool :=
  ops.all fun op =>
    match op with
    | .addColumn _ _ _ => true
    | .dropColumn _ _ _ => true
    | .alterColumn _ _ _ _ at? => decide (at? = some AlterationType.alter) || decide (at? = none)
    | _ => false

/-- One table's group of operations with its grouping verdict
(the record returned by `groupOperationsByTable`). -/
structure TableGroup where
  tableName : String
  operations : List MigrationOperation
  canGroup : Bool
deriving DecidableEq

/-- First-occurrence order of the table names of a list of operations
(the insertion order of the `Map` in `groupOperationsByTable`). -/
def tableOrder (ops : List MigrationOperation) : List String :=
  ops.foldl (fun acc op => if opTable op ∈ acc then acc else acc ++ [opTable op]) []

/-- MigrationGenerator.ts `groupOperationsByTable`: group operations by table
name (first-occurrence table order, operations keeping their relative order)
and attach the grouping verdict. -/
def groupOperationsByTable (ops : List MigrationOperation) : List TableGroup :=
  (tableOrder ops).map fun t =>
    { tableName := t,
      operations := ops.filter fun op => decide (opTable op = t),
      canGroup := canGroupOperations (ops.filter fun op => decide (opTable op = t)) }

/-- One emitted migration instruction: either a single composite
`alterTable` built from a whole group, or one standalone operation. These
stand for the strings pushed by `generateAlterTableMigration` (a
`generateGroupedAlterTable` result and a `generateMigrationOperation`
result respectively). -/
inductive MigrationInstruction where
  | grouped (tableName : String) (operations : List MigrationOperation)
  | single (operation : MigrationOperation)
deriving DecidableEq

/-- The up-direction emission loop of MigrationGenerator.ts
`generateAlterTableMigration` (lines 445-454): a group becomes one composite
instruction when it can group and has more than one operation; otherwise
every one of its operations is emitted standalone, in order. -/
def upEmission (ops : List MigrationOperation) : List MigrationInstruction :=
  (groupOperationsByTable ops).foldl
    (fun acc g =>
      if g.canGroup && decide (g.operations.length > 1) then
        acc ++ [MigrationInstruction.grouped g.tableName g.operations]
      else
        acc ++ g.operations.map MigrationInstruction.single)
    []

/-- Whether an emitted instruction is a standalone (non-batched) one. -/
def isStandalone : MigrationInstruction → Bool
  | .grouped _ _ => false
  | .single _ => true

/-- Operations for the C8 counterexample: two adds and one recreate-classified
alteration, all on one table. -/
def c8ops : List MigrationOperation :=
  [.addColumn "users" "a" { type := ColumnType.integer },
   .addColumn "users" "b" { type := ColumnType.integer },
   .alterColumn "users" "c" { type := ColumnType.text }
     (some { type := ColumnType.integer }) (some AlterationType.recreate)]

/-- C8 counterexample: when a table's group contains a `recreate` operation,
the remaining safe operations do NOT still form a batch: the group fails
`canGroupOperations`, and `generateAlterTableMigration` then emits every
operation of the group standalone — the two `addColumn`s are not batched
into a composite alterTable. -/
theorem c8_counterexample :
    upEmission c8ops =
      [MigrationInstruction.single (.addColumn "users" "a" { type := ColumnType.integer }),
       MigrationInstruction.single (.addColumn "users" "b" { type := ColumnType.integer }),
       MigrationInstruction.single (.alterColumn "users" "c" { type := ColumnType.text }
         (some { type := ColumnType.integer }) (some AlterationType.recreate))] ∧
    (upEmission c8ops).all isStandalone = true := by
  decide

/-- Auxiliary: folding the table-order accumulator over operations that all
live on an already-seen table leaves the accumulator unchanged. -/
theorem tableOrder_foldl_seen (l : List MigrationOperation) (t : String)
    (acc : List String) (hall : ∀ op ∈ l, opTable op = t) (hmem : t ∈ acc) :
    l.foldl (fun acc op => if opTable op ∈ acc then acc else acc ++ [opTable op]) acc =
      acc := by
  induction l with
  | nil => rfl
  | cons op tl ih =>
    have h1 : opTable op = t := hall op (List.mem_cons_self op tl)
    have h2 : ∀ op' ∈ tl, opTable op' = t :=
      fun op' hop' => hall op' (List.mem_cons_of_mem op hop')
    simp only [List.foldl_cons, h1, if_pos hmem]
    exact ih h2

/-- The table order of a nonempty single-table operation list is that table. -/
theorem tableOrder_const (ops : List MigrationOperation) (t : String)
    (hne : ops ≠ []) (hall : ∀ op ∈ ops, opTable op = t) : tableOrder ops = [t] := by
  cases ops with
  | nil => exact absurd rfl hne
  | cons op tl =>
    have h1 : opTable op = t := hall op (List.mem_cons_self op tl)
    have h2 : ∀ op' ∈ tl, opTable op' = t :=
      fun op' hop' => hall op' (List.mem_cons_of_mem op hop')
    simp only [tableOrder, List.foldl_cons, List.not_mem_nil, if_neg, List.nil_append, h1]
    exact tableOrder_foldl_seen tl t [t] h2 (List.mem_singleton.mpr rfl)

/-- C8 (amended): for a nonempty list of operations on one table, the
emission batches them into a single composite alterTable instruction iff
every operation is groupable AND there are at least two of them; otherwise
every operation — the safe ones included — is emitted standalone in order.
An operation is groupable iff it is an `addColumn`, a `dropColumn`, or an
`alterColumn` whose `alterationType` is `alter` or absent; any `raw` or
`recreate` alteration (or table-level operation) in the group therefore
forces the whole group to be emitted standalone, with no partial batch. -/
theorem c8_grouping_characterization (ops : List MigrationOperation) (t : String)
    (hne : ops ≠ []) (hall : ∀ op ∈ ops, opTable op = t) :
    (upEmission ops =
      if canGroupOperations ops && decide (ops.length > 1) then
        [MigrationInstruction.grouped t ops]
      else ops.map MigrationInstruction.single) ∧
    (canGroupOperations ops = true ↔ ∀ op ∈ ops,
      match op with
      | .addColumn _ _ _ => True
      | .dropColumn _ _ _ => True
      | .alterColumn _ _ _ _ at? => at? = some AlterationType.alter ∨ at? = none
      | _ => False) := by
  constructor
  · have hfilter : (ops.filter fun op => decide (opTable op = t)) = ops :=
      List.filter_eq_self.mpr fun op hop => by simp [hall op hop]
    have hgroups : groupOperationsByTable ops =
        [{ tableName := t, operations := ops, canGroup := canGroupOperations ops }] := by
      rw [groupOperationsByTable, tableOrder_const ops t hne hall]
      simp [hfilter]
    rw [upEmission, hgroups]
    rfl
  · rw [canGroupOperations, List.all_eq_true]
    constructor
    · intro h op hop
      have := h op hop
      cases op <;> simp_all
    · intro h op hop
      have := h op hop
      cases op <;> simp_all

/-- Operations for the C8 witness: two groupable operations on one table. -/
def c8wops : List MigrationOperation :=
  [.addColumn "users" "a" { type := ColumnType.integer },
   .dropColumn "users" "b" (some { type := ColumnType.text })]

/-- C8 witness: the amended characterization at a concrete two-operation
groupable list (which is batched into one grouped instruction). -/
theorem c8_grouping_characterization_witness :
    (upEmission c8wops =
      if canGroupOperations c8wops && decide (c8wops.length > 1) then
        [MigrationInstruction.grouped "users" c8wops]
      else c8wops.map MigrationInstruction.single) ∧
    (canGroupOperations c8wops = true ↔ ∀ op ∈ c8wops,
      match op with
      | .addColumn _ _ _ => True
      | .dropColumn _ _ _ => True
      | .alterColumn _ _ _ _ at? => at? = some AlterationType.alter ∨ at? = none
      | _ => False) :=
  c8_grouping_characterization c8wops "users" (by decide) (by decide)

/-- Direction of an emitted migration instruction. -/
inductive Direction where
  | up
  | down
deriving DecidableEq

/-- MigrationGenerator.ts `generateColumnBuilder`: render one column builder
line. The type switch renders the base call (string/decimal sizes are again
JavaScript-truthy: a 0 is treated as absent; an enum without `values` falls
back to a string builder with a TODO comment), then the modifier chain is
appended in source order, then `.alter()` when requested, after the indent. -/
def generateColumnBuilder (columnName : String) (d : ColumnDefinition)
    (indent : String) (isAlter : Bool) : String :=
  let base :=
    match d.type with
    | ColumnType.increments => "table.increments(\x27" ++ columnName ++ "\x27)"
    | ColumnType.bigIncrements => "table.bigIncrements(\x27" ++ columnName ++ "\x27)"
    | ColumnType.integer => "table.integer(\x27" ++ columnName ++ "\x27)"
    | ColumnType.bigInteger => "table.bigInteger(\x27" ++ columnName ++ "\x27)"
    | ColumnType.string =>
      match d.maxLength with
      | some n =>
        if n = 0 then "table.string(\x27" ++ columnName ++ "\x27)"
        else "table.string(\x27" ++ columnName ++ "\x27, " ++ toString n ++ ")"
      | none => "table.string(\x27" ++ columnName ++ "\x27)"
    | ColumnType.text => "table.text(\x27" ++ columnName ++ "\x27)"
    | ColumnType.boolean => "table.boolean(\x27" ++ columnName ++ "\x27)"
    | ColumnType.date => "table.date(\x27" ++ columnName ++ "\x27)"
    | ColumnType.datetime => "table.datetime(\x27" ++ columnName ++ "\x27)"
    | ColumnType.timestamp => "table.timestamp(\x27" ++ columnName ++ "\x27)"
    | ColumnType.time => "table.time(\x27" ++ columnName ++ "\x27)"
    | ColumnType.float => "table.float(\x27" ++ columnName ++ "\x27)"
    | ColumnType.double => "table.double(\x27" ++ columnName ++ "\x27)"
    | ColumnType.decimal =>
      match d.precision, d.scale with
      | some p, some s =>
        if p = 0 ∨ s = 0 then "table.decimal(\x27" ++ columnName ++ "\x27)"
        else "table.decimal(\x27" ++ columnName ++ "\x27, " ++ toString p ++ ", " ++
          toString s ++ ")"
      | _, _ => "table.decimal(\x27" ++ columnName ++ "\x27)"
    | ColumnType.binary => "table.binary(\x27" ++ columnName ++ "\x27)"
    | ColumnType.json => "table.json(\x27" ++ columnName ++ "\x27)"
    | ColumnType.jsonb => "table.jsonb(\x27" ++ columnName ++ "\x27)"
    | ColumnType.uuid => "table.uuid(\x27" ++ columnName ++ "\x27)"
    | ColumnType.enum =>
      match d.values with
      | some vs =>
        "table.enum(\x27" ++ columnName ++ "\x27, [" ++
          String.intercalate ", " (vs.map fun v => "\x27" ++ v ++ "\x27") ++ "])"
      | none => "table.string(\x27" ++ columnName ++ "\x27) // TODO: Define enum values"
  let b1 :=
    if d.primary = some true ∧ d.type ≠ ColumnType.increments ∧
        d.type ≠ ColumnType.bigIncrements then
      base ++ ".primary()"
    else base
  let b2 := if d.unique = some true then b1 ++ ".unique()" else b1
  let b3 :=
    if d.nullable = some true then b2 ++ ".nullable()"
    else if d.required = some true ∨ d.nullable = some false then b2 ++ ".notNullable()"
    else b2
  let b4 :=
    match d.defaultTo with
    | none => b3
    | some (DefaultValue.str s) =>
      if s = "now" then b3 ++ ".defaultTo(knex.fn.now())"
      else b3 ++ ".defaultTo(\x27" ++ s ++ "\x27)"
    | some (DefaultValue.num n) => b3 ++ ".defaultTo(" ++ toString n ++ ")"
    | some (DefaultValue.boolVal b) =>
      b3 ++ ".defaultTo(" ++ (if b then "true" else "false") ++ ")"
  let b5 := if d.index = some true then b4 ++ ".index()" else b4
  let b6 := if isAlter then b5 ++ ".alter()" else b5
  indent ++ b6

/-- `JSON.stringify(newDef.defaultTo || '')`: falsy defaults (absent, 0,
false, the empty string) collapse to the JSON empty string. -/
def jsonStringifyDefault : Option DefaultValue → String
  | none => "\"\""
  | some (DefaultValue.str s) => "\"" ++ s ++ "\""
  | some (DefaultValue.num n) => if n = 0 then "\"\"" else toString n
  | some (DefaultValue.boolVal b) => if b then "true" else "\"\""

/-- MigrationGenerator.ts `generateRawAlterOperation`: raw statements for
unique-constraint changes, NOT NULL changes (with a backfill before
tightening), and enum value changes, joined with the source's separator;
a fallback comment when no statement applies. -/
def generateRawAlterOperation (tableName columnName : String)
    (oldDef newDef : ColumnDefinition) : String :=
  let uniqueOps : List String :=
    if oldDef.unique ≠ newDef.unique then
      if newDef.unique = some true then
        ["await knex.schema.alterTable(\x27" ++ tableName ++
          "\x27, (table) => \x7b\n    table.unique([\x27" ++ columnName ++
          "\x27])\n  \x7d)"]
      else
        ["await knex.raw(\x27ALTER TABLE " ++ tableName ++
          " DROP CONSTRAINT IF EXISTS " ++ tableName ++ "_" ++ columnName ++
          "_unique\x27)"]
    else []
  let nullableOps : List String :=
    if oldDef.nullable = some true ∧ newDef.nullable = some false then
      ["// WARNING: Adding NOT NULL constraint - ensure no NULL values exist\n  await knex.raw(\x27UPDATE " ++
        tableName ++ " SET " ++ columnName ++ " = ? WHERE " ++ columnName ++
        " IS NULL\x27, [" ++ jsonStringifyDefault newDef.defaultTo ++ "])",
       "await knex.raw(\x27ALTER TABLE " ++ tableName ++ " ALTER COLUMN " ++
        columnName ++ " SET NOT NULL\x27)"]
    else if oldDef.nullable = some false ∧ newDef.nullable = some true then
      ["await knex.raw(\x27ALTER TABLE " ++ tableName ++ " ALTER COLUMN " ++
        columnName ++ " DROP NOT NULL\x27)"]
    else []
  let enumOps : List String :=
    match oldDef.values, newDef.values with
    | some ov, some nv =>
      if ov ≠ nv then
        ["// WARNING: Changing enum values - ensure data compatibility\n  await knex.raw(\x27ALTER TABLE " ++
          tableName ++ " ALTER COLUMN " ++ columnName ++ " TYPE varchar(255)\x27)",
         "await knex.raw(\x27ALTER TABLE " ++ tableName ++ " ALTER COLUMN " ++
          columnName ++ " TYPE " ++ tableName ++ "_" ++ columnName ++
          "_enum USING " ++ columnName ++ "::" ++ tableName ++ "_" ++ columnName ++
          "_enum\x27)"]
      else []
    | _, _ => []
  let allOps := uniqueOps ++ nullableOps ++ enumOps
  let final :=
    if allOps = [] then ["// No RAW operations needed for this change"] else allOps
  String.intercalate "\n  " final

/-- MigrationGenerator.ts `generateMigrationOperation`: the standalone
emission of one operation in one direction. Returns `none` exactly where the
source dereferences the missing old definition (`oldDef!`) and would throw:
the up direction of a `raw` alteration without `oldDefinition`. Every other
branch totals to a string; a `dropColumn` or `alterColumn` reversed without
its old definition yields the explicit TODO placeholder comment. -/
def generateMigrationOperation (op : MigrationOperation) (dir : Direction) :
    Option String :=
  match op with
  | .addColumn t c d =>
    match dir with
    | .up =>
      some ("await knex.schema.alterTable(\x27" ++ t ++
        "\x27, (table) => \x7b\n    " ++ generateColumnBuilder c d "    " false ++
        "\n  \x7d)")
    | .down =>
      some ("await knex.schema.alterTable(\x27" ++ t ++
        "\x27, (table) => \x7b\n    table.dropColumn(\x27" ++ c ++ "\x27)\n  \x7d)")
  | .dropColumn t c old? =>
    match dir with
    | .up =>
      some ("await knex.schema.alterTable(\x27" ++ t ++
        "\x27, (table) => \x7b\n    table.dropColumn(\x27" ++ c ++ "\x27)\n  \x7d)")
    | .down =>
      match old? with
      | some o =>
        some ("await knex.schema.alterTable(\x27" ++ t ++
          "\x27, (table) => \x7b\n    " ++ generateColumnBuilder c o "    " false ++
          "\n  \x7d)")
      | none => some ("// TODO: Add back column \x27" ++ c ++ "\x27 with proper definition")
  | .alterColumn t c d old? at? =>
    let alterType := at?.getD AlterationType.alter
    match dir with
    | .up =>
      match alterType with
      | AlterationType.alter =>
        some ("await knex.schema.alterTable(\x27" ++ t ++
          "\x27, (table) => \x7b\n    " ++ generateColumnBuilder c d "    " true ++
          "\n  \x7d)")
      | AlterationType.raw =>
        match old? with
        | some o => some (generateRawAlterOperation t c o d)
        | none => none
      | AlterationType.recreate =>
        some ("// WARNING: This operation may cause data loss - consider manual migration\n  await knex.schema.alterTable(\x27" ++
          t ++ "\x27, (table) => \x7b\n    table.dropColumn(\x27" ++ c ++
          "\x27)\n  \x7d)\n  await knex.schema.alterTable(\x27" ++ t ++
          "\x27, (table) => \x7b\n    " ++ generateColumnBuilder c d "    " false ++
          "\n  \x7d)")
    | .down =>
      match old? with
      | some o =>
        match alterType with
        | AlterationType.alter =>
          some ("await knex.schema.alterTable(\x27" ++ t ++
            "\x27, (table) => \x7b\n    " ++ generateColumnBuilder c o "    " true ++
            "\n  \x7d)")
        | AlterationType.raw => some (generateRawAlterOperation t c d o)
        | AlterationType.recreate =>
          some ("await knex.schema.alterTable(\x27" ++ t ++
            "\x27, (table) => \x7b\n    " ++ generateColumnBuilder c o "    " true ++
            "\n  \x7d)")
      | none => some ("// TODO: Reverse alteration for column \x27" ++ c ++ "\x27")
  | .createTable _ _ => some "// Unknown operation: createTable"
  | .dropTable _ => some "// Unknown operation: dropTable"

/-- Substring test over character lists (`String.prototype.includes`). -/
def hasInfix (pat : List Char) : List Char → Bool
  | [] => pat.isPrefixOf []
  | c :: t => pat.isPrefixOf (c :: t) || hasInfix pat t

/-- `op.includes('// TODO:')` on an emitted line. -/
def containsTODOStr (s : String) : Bool := hasInfix "// TODO:".data s.data

/-- The TODO test on an optional emission: a missing emission (an exception
in the source) does not count as a placeholder. -/
def containsTODOOpt : Option String → Bool
  | some s => containsTODOStr s
  | none => false

/-- The per-operation renderer inside MigrationGenerator.ts
`generateGroupedAlterTable` (the `switch` in the `map` callback): builder
lines or `table.dropColumn` lines, TODO placeholder comments for reversals
whose old definition is missing. -/
def groupedColumnOperation (op : MigrationOperation) (dir : Direction) : String :=
  match op with
  | .addColumn _ c d =>
    match dir with
    | .up => generateColumnBuilder c d "    " false
    | .down => "table.dropColumn(\x27" ++ c ++ "\x27)"
  | .dropColumn _ c old? =>
    match dir with
    | .up => "table.dropColumn(\x27" ++ c ++ "\x27)"
    | .down =>
      match old? with
      | some o => generateColumnBuilder c o "    " false
      | none => "// TODO: Add back column \x27" ++ c ++ "\x27 with proper definition"
  | .alterColumn _ c d old? _ =>
    match dir with
    | .up => generateColumnBuilder c d "    " true
    | .down =>
      match old? with
      | some o => generateColumnBuilder c o "    " true
      | none => "// TODO: Reverse alteration for column \x27" ++ c ++ "\x27"
  | .createTable _ _ => "// Unknown operation: createTable"
  | .dropTable _ => "// Unknown operation: dropTable"

/-- MigrationGenerator.ts `generateGroupedAlterTable`: render every
operation, FILTER OUT the lines containing the TODO placeholder, and wrap
the remainder in one composite alterTable (or emit the no-valid-operations
comment when nothing survives the filter). -/
def generateGroupedAlterTable (tableName : String) (ops : List MigrationOperation)
    (dir : Direction) : String :=
  let columnOperations :=
    (ops.map fun op => groupedColumnOperation op dir).filter
      fun s => !containsTODOStr s
  if columnOperations = [] then
    "// No valid operations for table \x27" ++ tableName ++ "\x27"
  else
    "await knex.schema.alterTable(\x27" ++ tableName ++ "\x27, (table) => \x7b\n    " ++
      String.intercalate "\n    " columnOperations ++ "\n  \x7d)"

/-- A prefix of a list is a prefix of any extension of it. -/
theorem isPrefixOf_append (p l r : List Char) (h : p.isPrefixOf l = true) :
    p.isPrefixOf (l ++ r) = true := by
  rw [List.isPrefixOf_iff_prefix] at h ⊢
  exact h.trans (List.prefix_append l r)

/-- A pattern that is a prefix is in particular an infix. -/
theorem hasInfix_of_isPrefixOf (p l : List Char) (h : p.isPrefixOf l = true) :
    hasInfix p l = true := by
  cases l <;> simp [hasInfix, h]

/-- A string starting with a literal that itself starts with `// TODO:`
contains the placeholder, whatever follows. -/
theorem containsTODO_of_prefix (pre rest : String)
    (h : ("// TODO:".data).isPrefixOf pre.data = true) :
    containsTODOStr (pre ++ rest) = true := by
  have hdata : (pre ++ rest).data = pre.data ++ rest.data := rfl
  rw [containsTODOStr, hdata]
  exact hasInfix_of_isPrefixOf _ _ (isPrefixOf_append _ _ _ h)

/-- The drop-reversal placeholder always contains `// TODO:`. -/
theorem containsTODO_dropPlaceholder (c : String) :
    containsTODOStr ("// TODO: Add back column \x27" ++ c ++
      "\x27 with proper definition") = true := by
  have h := containsTODO_of_prefix "// TODO: Add back column \x27"
    (c ++ "\x27 with proper definition") (by decide)
  simpa [String.append_assoc] using h

/-- The alter-reversal placeholder always contains `// TODO:`. -/
theorem containsTODO_alterPlaceholder (c : String) :
    containsTODOStr ("// TODO: Reverse alteration for column \x27" ++ c ++ "\x27") =
      true := by
  have h := containsTODO_of_prefix "// TODO: Reverse alteration for column \x27"
    (c ++ "\x27") (by decide)
  simpa [String.append_assoc] using h

/-- Operations for the C9 counterexample: two column drops on one table, one
with its old definition retained and one without; the pair is groupable
(`canGroupOperations` accepts drops), so the down migration goes through the
batched `generateGroupedAlterTable` path. -/
def c9ops : List MigrationOperation :=
  [.dropColumn "users" "a"
     (some { type := ColumnType.string, maxLength := some 255, required := some true }),
   .dropColumn "users" "b" none]

/-- C9 counterexample: in the batched emission path, the down output for a
group containing a `dropColumn` without `oldDefinition` contains NO
manual-action placeholder: the internally generated `// TODO:` line is
filtered out (`.filter(op => !op.includes('// TODO:'))`) and the operation
is silently omitted, contradicting the claim for the grouped path. The
standalone path does emit the placeholder for the very same operation. -/
theorem c9_counterexample :
    containsTODOStr (generateGroupedAlterTable "users" c9ops Direction.down) = false ∧
    canGroupOperations c9ops = true ∧
    containsTODOOpt
      (generateMigrationOperation (.dropColumn "users" "b" none) Direction.down) = true := by
  decide

/-- C9 (amended): when `oldDefinition` is absent for a reversed `dropColumn`
or a reversed `alterColumn` (whatever its `alterationType`, raw and recreate
included), the standalone path does not fail and emits an explicit
`// TODO:` manual-action placeholder; the batched path also does not fail,
but it filters the placeholder out, so such an operation contributes nothing
to the grouped down output. -/
theorem c9_missing_old_definition_behaviour :
    (∀ t c : String,
      containsTODOOpt
        (generateMigrationOperation (.dropColumn t c none) Direction.down) = true) ∧
    (∀ (t c : String) (d : ColumnDefinition) (at? : Option AlterationType),
      containsTODOOpt
        (generateMigrationOperation (.alterColumn t c d none at?) Direction.down) = true) ∧
    (∀ (t c1 c2 : String) (d : ColumnDefinition),
      generateGroupedAlterTable t
          [.dropColumn t c1 (some d), .dropColumn t c2 none] Direction.down =
        generateGroupedAlterTable t [.dropColumn t c1 (some d)] Direction.down) := by
  refine ⟨fun t c => ?_, fun t c d at? => ?_, fun t c1 c2 d => ?_⟩
  · simpa [generateMigrationOperation, containsTODOOpt]
      using containsTODO_dropPlaceholder c
  · simpa [generateMigrationOperation, containsTODOOpt]
      using containsTODO_alterPlaceholder c
  · have h2 := containsTODO_dropPlaceholder c2
    simp [generateGroupedAlterTable, groupedColumnOperation, List.filter_cons, h2]

/-- JavaScript `\s` on the characters these migration sources use. -/
def isWsChar (c : Char) : Bool :=
  c = ' ' || c = '\n' || c = '\t' || c = '\r'

/-- First character of a JavaScript identifier (`[a-zA-Z_$]`). -/
def isIdentStart (c : Char) : Bool := c.isAlpha || c = '_' || c = '$'

/-- Later character of a JavaScript identifier (`[a-zA-Z0-9_$]`). -/
def isIdentChar (c : Char) : Bool := c.isAlphanum || c = '_' || c = '$'

/-- A quote character recognized by the extraction regexes. -/
def isQuoteChar (c : Char) : Bool := c = '\x27' || c = '"' || c = '\x60'

/-- Consume one expected character. -/
def expectChar (ch : Char) : List Char → Option (List Char)
  | [] => none
  | c :: t => if c = ch then some t else none

/-- Consume an expected literal. -/
def expectLit (pat : List Char) (l : List Char) : Option (List Char) :=
  if pat.isPrefixOf l then some (l.drop pat.length) else none

/-- Consume one identifier (`[a-zA-Z_$][a-zA-Z0-9_$]*`, greedy). -/
def expectIdent : List Char → Option (List Char)
  | [] => none
  | c :: t => if isIdentStart c then some (t.dropWhile isIdentChar) else none

/-- Consume a quoted name: any quote, then one or more non-quote characters,
then any quote (as in the regexes, the closing quote need not match the
opening one). -/
def expectQuoted : List Char → Option (List Char × List Char)
  | [] => none
  | q :: t =>
    if isQuoteChar q then
      let name := t.takeWhile fun c => !isQuoteChar c
      match t.drop name.length with
      | q2 :: r => if isQuoteChar q2 ∧ name ≠ [] then some (name, r) else none
      | [] => none
    else none

/-- After optional whitespace, is the next character `)`? This is the
condition under which the lazy callback-body match `([\s\S]*?)\}\s*\)`
can stop at a closing brace. -/
def headAfterWsIsParen (l : List Char) : Bool :=
  match l.dropWhile isWsChar with
  | ')' :: _ => true
  | _ => false

/-- The lazy body match of the invocation regexes
(`\{([\s\S]*?)\}\s*\)`): the body is the shortest prefix ending at a `}`
that is followed by optional whitespace and `)`. Returns the body and the
text after that `}`. -/
def scanBody : List Char → Option (List Char × List Char)
  | [] => none
  | c :: t =>
    if c = '\x7d' ∧ headAfterWsIsParen t then some ([], t)
    else
      match scanBody t with
      | some (b, r) => some (c :: b, r)
      | none => none

/-- Attempt the invocation regex
`IDENT.schema.<method>\s*\(\s*['"`]NAME['"`]\s*,\s*function\s*\(\s*IDENT\s*\)\s*\{BODY\}\s*\)`
anchored at the start of `l`; on success return the quoted name, the lazy
callback body, and the rest of the input after the closing `)`. -/
def matchInvokeAt (methodLit : List Char) (l : List Char) :
    Option (List Char × List Char × List Char) := do
  let r1 ← expectIdent l
  let r2 ← expectLit methodLit r1
  let r3 ← expectChar '(' (r2.dropWhile isWsChar)
  let (name, r4) ← expectQuoted (r3.dropWhile isWsChar)
  let r5 ← expectChar ',' (r4.dropWhile isWsChar)
  let r6 ← expectLit "function".data (r5.dropWhile isWsChar)
  let r7 ← expectChar '(' (r6.dropWhile isWsChar)
  let r8 ← expectIdent (r7.dropWhile isWsChar)
  let r9 ← expectChar ')' (r8.dropWhile isWsChar)
  let r10 ← expectChar '\x7b' (r9.dropWhile isWsChar)
  let (body, r11) ← scanBody r10
  let r13 ← expectChar ')' (r11.dropWhile isWsChar)
  some (name, body, r13)

/-- Leftmost match of the invocation regex: try every start position left to
right, as `RegExp.exec` does. -/
def findInvoke (methodLit : List Char) : List Char → Option (List Char × List Char × List Char)
  | [] => none
  | c :: t =>
    match matchInvokeAt methodLit (c :: t) with
    | some r => some r
    | none => findInvoke methodLit t

/-- The global-flag loop: collect successive non-overlapping matches, each
continuing after the previous match's closing `)` (`lastIndex`). The fuel is
an upper bound on the match count; each match strictly shortens the input. -/
def extractLoop (methodLit : List Char) : Nat → List Char → List (String × String)
  | 0, _ => []
  | fuel + 1, l =>
    match findInvoke methodLit l with
    | some (name, body, rest) => (String.mk name, String.mk body) :: extractLoop methodLit fuel rest
    | none => []

/-- The lookahead of the `exports.up` regex terminator
`\}\s*(?=exports\.down|$)` with the multiline flag: after optional
whitespace the position must be at `exports.down`, at the end of the input,
or before a newline. -/
def upLookahead : List Char → Bool
  | [] => true
  | c :: t =>
    "exports.down".data.isPrefixOf (c :: t) || c = '\n' ||
      (isWsChar c && upLookahead t)

/-- The lazy `exports.up` body match: shortest prefix ending at a `}` whose
following text satisfies the terminator lookahead. -/
def scanUpBody : List Char → Option (List Char)
  | [] => none
  | c :: t =>
    if c = '\x7d' ∧ upLookahead t then some []
    else
      match scanUpBody t with
      | some b => some (c :: b)
      | none => none

/-- Attempt `exports\.up\s*=\s*function[^{]*\{BODY` anchored at the start of
`l`, returning the lazily matched body. -/
def matchUpAt (l : List Char) : Option (List Char) := do
  let r1 ← expectLit "exports.up".data l
  let r2 ← expectChar '=' (r1.dropWhile isWsChar)
  let r3 ← expectLit "function".data (r2.dropWhile isWsChar)
  let r4 := r3.dropWhile fun c => !(c = '\x7b')
  let r5 ← expectChar '\x7b' r4
  scanUpBody r5

/-- Leftmost `exports.up` match. -/
def findUp : List Char → Option (List Char)
  | [] => none
  | c :: t =>
    match matchUpAt (c :: t) with
    | some b => some b
    | none => findUp t

/-- MigrationParser.ts `extractCreateTableOperations`: extract the
`exports.up` body, then collect every `createTable` invocation in it as a
(table name, callback body) pair. -/
def extractCreateTableOperations (content : String) : List (String × String) :=
  match findUp content.data with
  | some upBody => extractLoop ".schema.createTable".data (upBody.length + 1) upBody
  | none => []

/-- MigrationParser.ts `extractAlterTableOperations`: identical shape with
the `alterTable` keyword. -/
def extractAlterTableOperations (content : String) : List (String × String) :=
  match findUp content.data with
  | some upBody => extractLoop ".schema.alterTable".data (upBody.length + 1) upBody
  | none => []

/-- MigrationParser.ts `extractViewOperations` (name and stored query text):
identical shape with the `createView` keyword. -/
def extractViewOperations (content : String) : List (String × String) :=
  match findUp content.data with
  | some upBody => extractLoop ".schema.createView".data (upBody.length + 1) upBody
  | none => []

/-- Migration source for the C6 counterexample: a createTable callback whose
body contains a nested braced argument (`foo({b:1})`), followed by another
column line. -/
def c6content : String :=
  "exports.up = function(knex) \x7b\n  return knex.schema.createTable(\x27users\x27, function(table) \x7b\n    table.integer(\x27a\x27).defaultTo(foo(\x7bb:1\x7d))\n    table.string(\x27c\x27)\n  \x7d)\n\x7d\n"

/-- The body the extractor actually returns on `c6content`: truncated at the
first `}` that is followed by `)` — the closer of the nested `{b:1}`. -/
def c6truncatedBody : String :=
  "\n    table.integer(\x27a\x27).defaultTo(foo(\x7bb:1"

/-- The body the claim predicts: the text up to the brace matching the
callback's opening brace, keeping the whole nested argument and the second
column line. -/
def c6balancedBody : String :=
  "\n    table.integer(\x27a\x27).defaultTo(foo(\x7bb:1\x7d))\n    table.string(\x27c\x27)\n  "

set_option maxRecDepth 10000 in
/-- C6 counterexample: the extractor does not use balanced-brace counting.
On a callback body containing `foo({b:1})`, the lazy regex
`\{([\s\S]*?)\}\s*\)` ends the body at the `}` of the nested `{b:1}`
(the first `}` followed by `)`), truncating the body mid-expression and
losing the following `table.string('c')` line, instead of extending to the
matching closing brace. -/
theorem c6_counterexample :
    extractCreateTableOperations c6content = [("users", c6truncatedBody)] ∧
    c6truncatedBody ≠ c6balancedBody := by
  decide

/-- C6 (amended): the callback body is bounded by a lazy regex, not by
balanced-brace counting: `scanBody` succeeds exactly with the SHORTEST
prefix that ends at a `}` followed by optional whitespace and `)` — whether
or not that `}` matches the callback's opening brace. -/
theorem c6_lazy_body_characterization (s b r : List Char)
    (h : scanBody s = some (b, r)) :
    s = b ++ '\x7d' :: r ∧ headAfterWsIsParen r = true ∧
    ∀ b' r', s = b' ++ '\x7d' :: r' → headAfterWsIsParen r' = true →
      b.length ≤ b'.length := by
  induction s generalizing b r with
  | nil => cases h
  | cons c t ih =>
    rw [scanBody] at h
    by_cases hc : c = '\x7d' ∧ headAfterWsIsParen t
    · rw [if_pos hc] at h
      obtain ⟨hb, hr⟩ : [] = b ∧ t = r := by
        have := Option.some.inj h
        exact ⟨congrArg Prod.fst this, congrArg Prod.snd this⟩
      subst hb
      subst hr
      refine ⟨by simp [hc.1], hc.2, ?_⟩
      intro b' r' _ _
      simp
    · rw [if_neg hc] at h
      cases hs : scanBody t with
      | none =>
        rw [hs] at h
        cases h
      | some br =>
        obtain ⟨b0, r0⟩ := br
        rw [hs] at h
        obtain ⟨hb, hr⟩ : c :: b0 = b ∧ r0 = r := by
          have := Option.some.inj h
          exact ⟨congrArg Prod.fst this, congrArg Prod.snd this⟩
        subst hb
        subst hr
        obtain ⟨ih1, ih2, ih3⟩ := ih b0 r0 hs
        refine ⟨by rw [ih1]; rfl, ih2, ?_⟩
        intro b' r' heq hpar
        cases b' with
        | nil =>
          have h1 : c = '\x7d' := (List.cons.injEq .. ▸ heq).1
          have h2 : t = r' := (List.cons.injEq .. ▸ heq).2
          exact absurd ⟨h1, h2 ▸ hpar⟩ hc
        | cons c' b'' =>
          have h2 : t = b'' ++ '\x7d' :: r' := (List.cons.injEq .. ▸ heq).2
          have := ih3 b'' r' h2 hpar
          simpa using Nat.succ_le_succ this

/-- C6 witness: the lazy-body characterization at a concrete input. -/
theorem c6_lazy_body_characterization_witness :
    scanBody "x\x7d)".data = some ("x".data, ")".data) ∧
    "x\x7d)".data = "x".data ++ '\x7d' :: ")".data ∧
    headAfterWsIsParen ")".data = true :=
  ⟨by decide, (c6_lazy_body_characterization "x\x7d)".data "x".data ")".data (by decide)).1,
   (c6_lazy_body_characterization "x\x7d)".data "x".data ")".data (by decide)).2.1⟩
